import Mathlib

/-!
Verification development for the `emz_convertor` repository (`src/converter.py`).

The program is a two-stage batch conversion pipeline wrapped in a class
`EmzConverter`:

* `check_paths` (converter.py lines 31-52) validates the input directory,
  derives a default output directory (`folder_input_path + "\\output_png_images"`)
  when none is supplied, and creates the output directory when missing;
* `__init__` (lines 21-28) runs `check_paths` and then creates the staging
  directory `<input>/wmf_files` with `mkdir(parents=True, exist_ok=True)`;
* `find_files` (lines 55-68) lists the files of a directory with a given
  suffix and raises `IOError("Provided path does not exist.")` when the
  directory is missing;
* `convert_emz_files_to_wmf` (stage 1, lines 70-77) copies every `.emz` file
  of the input directory into the staging directory under the same base name
  with extension `.wmf` (`shutil.copyfile`, which overwrites);
* `convert_wmf_to_specified_output_type` (stage 2, lines 79-98) decodes every
  staged `.wmf` file with `Image.open`/`save` inside a per-file `try/except`,
  accumulates the identifiers of failing files in `errors_`, unconditionally
  removes the staging directory (`shutil.rmtree`, line 91), and, when
  `errors_` is non-empty, writes `pd.DataFrame(errors_, columns=["file_names"]).to_csv`
  to `./unsuccessful_conversions.csv` and raises an exception naming that path;
* `convert` (lines 100-103) runs stage 1 then stage 2.

Two models are used.  A path-level model (strings parsed into components,
Windows `pathlib` semantics: both `/` and `\` separate components and empty
components collapse) embeds `check_paths` and `__init__`.  A directory-content
model (directories as association lists of file names and byte strings, the
PIL collaborator as a pair of result-returning functions) embeds the two
stages and `convert`.  Python exceptions whose side effects must remain
observable are modelled by returning the post-state together with an optional
raised error.
-/

namespace EmzConvertor

/-! ### Path-level model: parsing path strings into components -/

/-- Windows path separators: `pathlib.WindowsPath` treats both `/` and `\`
as component separators. -/
def isSep (c : Char) : Bool := c == '/' || c == '\\'

/-- Raw component split of a character list at separators (empty components
kept; they are filtered out by `parsePath`, as `pathlib` collapses them). -/
def compsAux : List Char → List (List Char)
  | [] => [[]]
  | c :: cs =>
    if isSep c then [] :: compsAux cs
    else
      match compsAux cs with
      | [] => [[c]]
      | h :: t => (c :: h) :: t

/-- Parse a path string into its non-empty components, following the
Windows `pathlib` semantics used by the repository (its `__main__` block
runs the converter on a `C:\...` path). -/
def parsePath (s : String) : List String :=
  ((compsAux s.data).filter (fun c => !c.isEmpty)).map (fun c => String.mk c)

/-- The filesystem as seen by the path-level model: the set of directories
that exist, each identified by its component list. -/
structure DirFS where
  dirs : List (List String)
deriving DecidableEq, Repr

/-- `Path(p).exists()` on a directory path. -/
def DirFS.hasDir (fs : DirFS) (p : List String) : Bool := fs.dirs.contains p

/-- `Path(p).mkdir(...)`: the directory now exists.  The `parents=True`
creation of missing ancestors is elided: in every call site of the source the
parent is the input directory, which has already been checked to exist. -/
def DirFS.mkdir (fs : DirFS) (p : List String) : DirFS := ⟨p :: fs.dirs⟩

/-- `EmzConverter.check_paths` (converter.py lines 31-52).  Returns the
possibly extended filesystem, together with either the raised `IOError`
message (line 45) or the two resolved paths (line 52).  The default output
path is the Python string concatenation `folder_input_path + "\\output_png_images"`
(line 48), and the output directory is created only when it does not exist
(lines 50-51). -/
def check_paths (fs : DirFS) (folder_input_path : String)
    (folder_output_path : Option String) :
    DirFS × Except String (List String × List String) :=
  if fs.hasDir (parsePath folder_input_path) then
    let outStr :=
      match folder_output_path with
      | none => folder_input_path ++ "\\output_png_images"
      | some s => s
    let outP := parsePath outStr
    if fs.hasDir outP then
      (fs, Except.ok (parsePath folder_input_path, outP))
    else
      (fs.mkdir outP, Except.ok (parsePath folder_input_path, outP))
  else
    (fs, Except.error ("The path " ++ folder_input_path ++ " does not exist"))

/-- The configuration held by a constructed `EmzConverter` (converter.py
lines 21-28). -/
structure Job where
  input : List String
  output : List String
  staging : List String
  output_type : String
deriving DecidableEq, Repr

/-- `EmzConverter.__init__` (converter.py lines 21-28): run `check_paths`,
derive the staging directory `<input>/wmf_files` (line 24) and create it with
`mkdir(parents=True, exist_ok=True)` (line 26).  When `check_paths` raises,
the exception propagates and no further file operation happens. -/
def emzConverterInit (fs : DirFS) (folder_input_path : String)
    (folder_output_path : Option String) (output_type : String) :
    DirFS × Except String Job :=
  match check_paths fs folder_input_path folder_output_path with
  | (fs1, Except.error e) => (fs1, Except.error e)
  | (fs1, Except.ok (ip, op)) =>
    let wmf := ip ++ ["wmf_files"]
    let fs2 := if fs1.hasDir wmf then fs1 else fs1.mkdir wmf
    (fs2, Except.ok { input := ip, output := op, staging := wmf, output_type := output_type })

/-! ### Directory-content model: the two pipeline stages -/

/-- A file name, split as `pathlib` does into the stem and the (final)
extension.  `path.glob("*.emz")` yields the files whose extension is `emz`,
and `path.with_suffix(".wmf")` replaces the extension keeping the stem. -/
structure FName where
  stem : String
  ext : String
deriving DecidableEq, Repr

/-- `Path.with_suffix`: replace the extension, keep the stem. -/
def FName.withExt (f : FName) (e : String) : FName := ⟨f.stem, e⟩

/-- A directory's contents: file names paired with their bytes, in listing
order (the source promises no particular glob order; this model fixes one). -/
abbrev Dir := List (FName × String)

/-- Writing a file into a directory: overwrite the entry with that name when
present (`shutil.copyfile` / `Image.save` both overwrite), append otherwise. -/
def upsert (d : Dir) (n : FName) (c : String) : Dir :=
  if d.any (fun f => f.1 == n) then
    d.map (fun f => if f.1 == n then (n, c) else f)
  else
    d ++ [(n, c)]

/-- The external PIL collaborator: `Image.open` on the staged bytes either
raises (modelled as `Except.error`) or succeeds, and `Image.save` re-encodes
the bytes to the requested extension or raises.  Both are deterministic
functions of the file content. -/
structure Decoder where
  openRes : String → Except String Unit
  saveRes : String → String → Except String String

/-- The raised Python exceptions that the pipeline claims talk about. -/
inductive PipeError where
  /-- `IOError("Provided path does not exist.")` from `find_files` (line 67). -/
  | pathMissing (msg : String)
  /-- `shutil.copyfile` failing because the staging directory is missing. -/
  | copyFailed
  /-- The `Exception` of lines 95-96, carrying the report path it names. -/
  | batchIncomplete (csvPath : String)
deriving DecidableEq, Repr

/-- The filesystem state a run observes and mutates: the input directory's
files, the staging directory (`none` when it does not exist), the output
directory's files, the report file `./unsuccessful_conversions.csv` (rows of
the CSV when it exists), and nothing else. -/
structure PState where
  inputFiles : Dir
  stagingDir : Option Dir
  outputFiles : Dir
  report : Option (List (Nat × FName))
deriving DecidableEq, Repr

/-- `EmzConverter.find_files` (converter.py lines 55-68): raise when the
directory does not exist, otherwise list its files with the given suffix. -/
def find_files (dir : Option Dir) (suffix : String) : Except String Dir :=
  match dir with
  | none => Except.error "Provided path does not exist."
  | some files => Except.ok (files.filter (fun f => f.1.ext == suffix))

/-- `pd.DataFrame(errors_, columns=["file_names"]).to_csv` (line 94): a
two-column table, default integer index plus the file identifiers, in order. -/
def to_csv (errors : List FName) : List (Nat × FName) := errors.enum

/-- `str(Path(".") / "unsuccessful_conversions.csv")` (line 93): the report
path in the current working directory. -/
def csv_file : String := "unsuccessful_conversions.csv"

/-- `EmzConverter.convert_emz_files_to_wmf` (stage 1, converter.py lines
70-77): list the `.emz` files of the input directory and copy each one's
bytes verbatim to the staging directory under the name
`file_.with_suffix(".wmf").name`.  The input directory exists whenever a
constructed job runs, so its `find_files` call succeeds; `shutil.copyfile`
into a missing staging directory raises (modelled as `copyFailed`), and with
zero `.emz` files the loop body never runs, so nothing is raised. -/
def convert_emz_files_to_wmf (st : PState) : PState × Option PipeError :=
  match find_files (some st.inputFiles) "emz" with
  | Except.error e => (st, some (PipeError.pathMissing e))
  | Except.ok emz =>
    match st.stagingDir with
    | some staged =>
      let staged2 := emz.foldl (fun acc f => upsert acc (f.1.withExt "wmf") f.2) staged
      ({ st with stagingDir := some staged2 }, none)
    | none =>
      if emz.isEmpty then (st, none) else (st, some PipeError.copyFailed)

/-- The state accumulated by stage 2's per-file loop: the output directory's
files and the `errors_` list (converter.py line 81). -/
structure Stage2Acc where
  outputs : Dir
  errors : List FName
deriving DecidableEq, Repr

/-- The body of stage 2's loop (converter.py lines 83-90): `Image.open`,
then `Image.save` to `folder_output_path / file_.with_suffix(f".{output_type}").name`;
on any exception append the file's identifier to `errors_` and continue. -/
def processWmf (d : Decoder) (output_type : String) (acc : Stage2Acc)
    (f : FName × String) : Stage2Acc :=
  match d.openRes f.2 with
  | Except.error _ => { acc with errors := acc.errors ++ [f.1] }
  | Except.ok _ =>
    match d.saveRes f.2 output_type with
    | Except.error _ => { acc with errors := acc.errors ++ [f.1] }
    | Except.ok out =>
      { acc with outputs := upsert acc.outputs (f.1.withExt output_type) out }

/-- Stage 2's loop over a list of staged files. -/
def runWmfs (d : Decoder) (output_type : String) (fs : Dir) (acc : Stage2Acc) :
    Stage2Acc :=
  fs.foldl (processWmf d output_type) acc

/-- Whether `Image.open` or `Image.save` raises on this content: the per-file
failure condition of stage 2. -/
def fileFails (d : Decoder) (output_type : String) (content : String) : Bool :=
  match d.openRes content with
  | Except.error _ => true
  | Except.ok _ =>
    match d.saveRes content output_type with
    | Except.error _ => true
    | Except.ok _ => false

/-- `EmzConverter.convert_wmf_to_specified_output_type` (stage 2, converter.py
lines 79-98): iterate over the staged `.wmf` files with per-file exception
handling, then `shutil.rmtree(self.wmf_folder)` (line 91), then, when
`errors_` is non-empty, write the CSV report and raise the exception naming
it (lines 92-96); otherwise report success (line 98).  Side effects performed
before a raise persist, so the function returns the post-state together with
the raised error, if any. -/
def convert_wmf_to_specified_output_type (d : Decoder) (output_type : String)
    (st : PState) : PState × Option PipeError :=
  match find_files st.stagingDir "wmf" with
  | Except.error e => (st, some (PipeError.pathMissing e))
  | Except.ok wmfs =>
    let acc := runWmfs d output_type wmfs { outputs := st.outputFiles, errors := [] }
    let st1 := { st with outputFiles := acc.outputs, stagingDir := none }
    if acc.errors.length > 0 then
      ({ st1 with report := some (to_csv acc.errors) },
        some (PipeError.batchIncomplete csv_file))
    else
      (st1, none)

/-- `EmzConverter.convert` (converter.py lines 100-103): stage 1 then
stage 2; an exception in stage 1 propagates and stage 2 never runs. -/
def convert (d : Decoder) (output_type : String) (st : PState) :
    PState × Option PipeError :=
  match convert_emz_files_to_wmf st with
  | (st1, some e) => (st1, some e)
  | (st1, none) => convert_wmf_to_specified_output_type d output_type st1

/-- The staging-directory creation of `__init__` (converter.py line 26):
`mkdir(parents=True, exist_ok=True)` keeps an existing staging directory,
contents included, and creates an empty one otherwise. -/
def initStaging (st : PState) : PState :=
  { st with stagingDir := some (st.stagingDir.getD []) }

/-- A full run: construct the job (which creates the staging directory) and
call `convert`. -/
def runJob (d : Decoder) (output_type : String) (st : PState) :
    PState × Option PipeError :=
  convert d output_type (initStaging st)

/-- Stage 1's fold, named for use in specifications: copy every `.emz` file
of `input` into the staged contents under the `.wmf` name. -/
def stage1Fold (input : Dir) (staged : Dir) : Dir :=
  (input.filter (fun f => f.1.ext == "emz")).foldl
    (fun acc f => upsert acc (f.1.withExt "wmf") f.2) staged

/-- The `.wmf` files of a directory, as stage 2's `find_files` call lists
them. -/
def wmfOnly (fs : Dir) : Dir := fs.filter (fun f => f.1.ext == "wmf")

/-- The accumulator stage 2 starts from: the output directory's current
files and an empty `errors_` list. -/
def stage2Init (st : PState) : Stage2Acc :=
  { outputs := st.outputFiles, errors := [] }

/-- The accumulator stage 2 ends with, for a staging directory holding
`fs`. -/
def stage2Run (d : Decoder) (output_type : String) (st : PState) (fs : Dir) :
    Stage2Acc :=
  runWmfs d output_type (wmfOnly fs) (stage2Init st)

/-- The bytes `Image.save` writes for a successfully converted file. -/
def savedOf (d : Decoder) (output_type : String) (content : String) : String :=
  match d.saveRes content output_type with
  | Except.ok v => v
  | Except.error _ => ""

/-- The staged copies stage 1 produces from an input directory: every `.emz`
file renamed to `.wmf` with its bytes unchanged. -/
def emzRenamed (input : Dir) : Dir :=
  (input.filter (fun f => f.1.ext == "emz")).map (fun f => (f.1.withExt "wmf", f.2))

/-! ### Concrete fixtures used by the witness theorems -/

/-- A concrete decoder: opening bytes `"BAD"` raises, saving bytes
`"SAVEBAD"` raises, everything else converts. -/
def dW : Decoder where
  openRes := fun c =>
    if c == "BAD" then Except.error "cannot identify image file" else Except.ok ()
  saveRes := fun c output_type =>
    if c == "SAVEBAD" then Except.error "save failed"
    else Except.ok (c ++ ":" ++ output_type)

/-- A staged directory holding one decodable file and one corrupt file. -/
def stagedW : Dir := [(⟨"a", "wmf"⟩, "GOODA"), (⟨"corrupt", "wmf"⟩, "BAD")]

/-- A state in the middle of a run: `a.emz` and `corrupt.emz` have been
staged, the output directory is empty. -/
def stStage : PState where
  inputFiles := [(⟨"a", "emz"⟩, "GOODA"), (⟨"corrupt", "emz"⟩, "BAD")]
  stagingDir := some stagedW
  outputFiles := []
  report := none

/-- A fresh state before any run: two decodable `.emz` files, no staging
directory, empty output directory. -/
def stFresh : PState where
  inputFiles := [(⟨"a", "emz"⟩, "GOODA"), (⟨"b", "emz"⟩, "GOODB")]
  stagingDir := none
  outputFiles := []
  report := none

/-- A fresh state whose staging directory survived an interrupted run and
still holds a leftover `left.wmf`. -/
def stLeft : PState where
  inputFiles := [(⟨"a", "emz"⟩, "GOODA")]
  stagingDir := some [(⟨"left", "wmf"⟩, "GOODL")]
  outputFiles := []
  report := none

/-- A path-level filesystem holding one directory, `in`. -/
def fsW : DirFS := ⟨[["in"]]⟩

/-! ### Path-parsing lemmas -/

theorem compsAux_ne_nil (l : List Char) : compsAux l ≠ [] := by
  induction l with
  | nil => simp [compsAux]
  | cons c cs ih =>
    by_cases h : isSep c
    · simp [compsAux, h]
    · simp only [compsAux, h, Bool.false_eq_true, if_false]
      obtain ⟨x, xs, hx⟩ := List.exists_cons_of_ne_nil ih
      rw [hx]
      simp

theorem compsAux_append_sep (c : Char) (hc : isSep c = true) (a b : List Char) :
    compsAux (a ++ c :: b) = compsAux a ++ compsAux b := by
  induction a with
  | nil => simp [compsAux, hc]
  | cons x xs ih =>
    by_cases hx : isSep x
    · simp [compsAux, hx, ih]
    · simp only [List.cons_append, compsAux, hx, Bool.false_eq_true, if_false,
        List.append_eq]
      obtain ⟨y, ys, hy⟩ := List.exists_cons_of_ne_nil (compsAux_ne_nil xs)
      rw [ih, hy]
      simp

theorem parsePath_default_output (inp : String) :
    parsePath (inp ++ "\\output_png_images") = parsePath inp ++ ["output_png_images"] := by
  unfold parsePath
  have hdata : (inp ++ "\\output_png_images").data
      = inp.data ++ '\\' :: "output_png_images".data := by
    rw [String.data_append]
  rw [hdata, compsAux_append_sep '\\' (by decide), List.filter_append, List.map_append]
  rfl

/-! ### Lemmas about directory writes -/

theorem mem_upsert_self (d : Dir) (n : FName) (c : String) : (n, c) ∈ upsert d n c := by
  unfold upsert
  by_cases h : d.any (fun f => f.1 == n)
  · rw [if_pos h]
    obtain ⟨x, hx, hbeq⟩ := List.any_eq_true.mp h
    exact List.mem_map.mpr ⟨x, hx, by simp [hbeq]⟩
  · rw [if_neg h]
    exact List.mem_append_right _ (List.mem_singleton.mpr rfl)

theorem mem_upsert_of_ne (d : Dir) (n : FName) (c : String) (f : FName × String)
    (hf : f ∈ d) (hne : f.1 ≠ n) : f ∈ upsert d n c := by
  unfold upsert
  by_cases h : d.any (fun f => f.1 == n)
  · rw [if_pos h]
    exact List.mem_map.mpr ⟨f, hf, by simp [hne]⟩
  · rw [if_neg h]
    exact List.mem_append_left _ hf

theorem upsert_keys_mono (d : Dir) (n : FName) (c : String) (k : FName)
    (hk : k ∈ d.map Prod.fst) : k ∈ (upsert d n c).map Prod.fst := by
  unfold upsert
  by_cases h : d.any (fun f => f.1 == n)
  · rw [if_pos h]
    obtain ⟨x, hx, hkx⟩ := List.mem_map.mp hk
    rw [List.map_map]
    apply List.mem_map.mpr
    refine ⟨x, hx, ?_⟩
    by_cases hxn : x.1 == n
    · simp only [Function.comp, hxn, if_pos]
      exact (eq_of_beq hxn).symm.trans hkx
    · simp only [Function.comp, hxn, if_neg]
      simpa using hkx
  · rw [if_neg h, List.map_append]
    exact List.mem_append_left _ hk

theorem key_mem_upsert (d : Dir) (n : FName) (c : String) :
    n ∈ (upsert d n c).map Prod.fst :=
  List.mem_map.mpr ⟨(n, c), mem_upsert_self d n c, rfl⟩

theorem upsert_of_fresh (d : Dir) (n : FName) (c : String)
    (h : n ∉ d.map Prod.fst) : upsert d n c = d ++ [(n, c)] := by
  unfold upsert
  rw [if_neg]
  intro hany
  obtain ⟨x, hx, hbeq⟩ := List.any_eq_true.mp hany
  exact h (List.mem_map.mpr ⟨x, hx, eq_of_beq hbeq⟩)

/-! ### Lemmas about stage 2's per-file loop -/

theorem processWmf_errors (d : Decoder) (t : String) (acc : Stage2Acc)
    (f : FName × String) :
    (processWmf d t acc f).errors =
      if fileFails d t f.2 then acc.errors ++ [f.1] else acc.errors := by
  unfold processWmf fileFails
  cases d.openRes f.2 with
  | error e => simp
  | ok u =>
    cases d.saveRes f.2 t with
    | error e => simp
    | ok v => simp

theorem processWmf_outputs (d : Decoder) (t : String) (acc : Stage2Acc)
    (f : FName × String) :
    (processWmf d t acc f).outputs =
      if fileFails d t f.2 then acc.outputs
      else upsert acc.outputs (f.1.withExt t) (savedOf d t f.2) := by
  unfold processWmf fileFails savedOf
  cases d.openRes f.2 with
  | error e => simp
  | ok u =>
    cases d.saveRes f.2 t with
    | error e => simp
    | ok v => simp

theorem runWmfs_append (d : Decoder) (t : String) (l1 l2 : Dir) (acc : Stage2Acc) :
    runWmfs d t (l1 ++ l2) acc = runWmfs d t l2 (runWmfs d t l1 acc) := by
  unfold runWmfs
  exact List.foldl_append _ _ _ _

theorem runWmfs_errors_mono (d : Decoder) (t : String) (fs : Dir) (acc : Stage2Acc)
    (x : FName) (hx : x ∈ acc.errors) : x ∈ (runWmfs d t fs acc).errors := by
  induction fs generalizing acc with
  | nil => exact hx
  | cons f fs ih =>
    apply ih
    rw [processWmf_errors]
    split
    · exact List.mem_append_left _ hx
    · exact hx

theorem runWmfs_keys_mono (d : Decoder) (t : String) (fs : Dir) (acc : Stage2Acc)
    (k : FName) (hk : k ∈ acc.outputs.map Prod.fst) :
    k ∈ (runWmfs d t fs acc).outputs.map Prod.fst := by
  induction fs generalizing acc with
  | nil => exact hk
  | cons f fs ih =>
    apply ih
    rw [processWmf_outputs]
    split
    · exact hk
    · exact upsert_keys_mono _ _ _ _ hk

theorem runWmfs_cons (d : Decoder) (t : String) (f : FName × String) (fs : Dir)
    (acc : Stage2Acc) :
    runWmfs d t (f :: fs) acc = runWmfs d t fs (processWmf d t acc f) := rfl

theorem runWmfs_mem_errors (d : Decoder) (t : String) (fs : Dir) (acc : Stage2Acc)
    (f : FName × String) (hf : f ∈ fs) (hfail : fileFails d t f.2 = true) :
    f.1 ∈ (runWmfs d t fs acc).errors := by
  obtain ⟨l1, l2, rfl⟩ := List.append_of_mem hf
  rw [runWmfs_append, runWmfs_cons]
  apply runWmfs_errors_mono
  rw [processWmf_errors, if_pos hfail]
  exact List.mem_append_right _ (List.mem_singleton.mpr rfl)

theorem runWmfs_mem_outputs (d : Decoder) (t : String) (fs : Dir) (acc : Stage2Acc)
    (f : FName × String) (hf : f ∈ fs) (hok : fileFails d t f.2 = false) :
    f.1.withExt t ∈ (runWmfs d t fs acc).outputs.map Prod.fst := by
  obtain ⟨l1, l2, rfl⟩ := List.append_of_mem hf
  rw [runWmfs_append, runWmfs_cons]
  apply runWmfs_keys_mono
  rw [processWmf_outputs, if_neg (by rw [hok]; exact Bool.false_ne_true)]
  exact key_mem_upsert _ _ _

theorem runWmfs_all_ok (d : Decoder) (t : String) (fs : Dir) (acc : Stage2Acc)
    (hok : ∀ f ∈ fs, fileFails d t f.2 = false)
    (hfresh : ∀ f ∈ fs, f.1.withExt t ∉ acc.outputs.map Prod.fst)
    (hdist : (fs.map (fun f => f.1.withExt t)).Nodup) :
    (runWmfs d t fs acc).outputs.map Prod.fst
        = acc.outputs.map Prod.fst ++ fs.map (fun f => f.1.withExt t) ∧
    (runWmfs d t fs acc).errors = acc.errors := by
  induction fs generalizing acc with
  | nil => simp [runWmfs]
  | cons f fs ih =>
    rw [runWmfs_cons]
    have hoknow := hok f (List.mem_cons_self f fs)
    have hout : (processWmf d t acc f).outputs
        = acc.outputs ++ [(f.1.withExt t, savedOf d t f.2)] := by
      rw [processWmf_outputs, if_neg (by rw [hoknow]; exact Bool.false_ne_true)]
      exact upsert_of_fresh _ _ _ (hfresh f (List.mem_cons_self f fs))
    have herr : (processWmf d t acc f).errors = acc.errors := by
      rw [processWmf_errors, if_neg (by rw [hoknow]; exact Bool.false_ne_true)]
    have hdist2 := hdist
    rw [List.map_cons, List.nodup_cons] at hdist2
    obtain ⟨ihout, iherr⟩ := ih (processWmf d t acc f)
      (fun g hg => hok g (List.mem_cons_of_mem f hg))
      (fun g hg => by
        rw [hout, List.map_append]
        intro hmem
        rcases List.mem_append.mp hmem with h1 | h1
        · exact hfresh g (List.mem_cons_of_mem f hg) h1
        · have : g.1.withExt t = f.1.withExt t := by simpa using h1
          exact hdist2.1 (this ▸ List.mem_map_of_mem _ hg))
      hdist2.2
    refine ⟨?_, iherr.trans herr⟩
    rw [ihout, hout, List.map_append]
    simp

/-! ### Lemmas about stage 1's copy fold -/

theorem mem_foldl_upsert (l : List (FName × String)) (staged : Dir)
    (f : FName × String) (hf : f ∈ staged)
    (hfr : ∀ g ∈ l, g.1.withExt "wmf" ≠ f.1) :
    f ∈ l.foldl (fun acc g => upsert acc (g.1.withExt "wmf") g.2) staged := by
  induction l generalizing staged with
  | nil => exact hf
  | cons g l ih =>
    rw [List.foldl_cons]
    apply ih
    · exact mem_upsert_of_ne _ _ _ _ hf
        (fun h => hfr g (List.mem_cons_self g l) h.symm)
    · exact fun g2 hg2 => hfr g2 (List.mem_cons_of_mem g hg2)

theorem foldl_upsert_fresh (l : List (FName × String)) (acc : Dir)
    (hfresh : ∀ g ∈ l, g.1.withExt "wmf" ∉ acc.map Prod.fst)
    (hnd : (l.map (fun g => g.1.withExt "wmf")).Nodup) :
    l.foldl (fun a g => upsert a (g.1.withExt "wmf") g.2) acc
      = acc ++ l.map (fun g => (g.1.withExt "wmf", g.2)) := by
  induction l generalizing acc with
  | nil => simp
  | cons g l ih =>
    rw [List.foldl_cons, upsert_of_fresh _ _ _ (hfresh g (List.mem_cons_self g l))]
    have hnd2 := hnd
    rw [List.map_cons, List.nodup_cons] at hnd2
    rw [ih (acc ++ [(g.1.withExt "wmf", g.2)])
      (fun g2 hg2 => by
        rw [List.map_append]
        intro hmem
        rcases List.mem_append.mp hmem with h1 | h1
        · exact hfresh g2 (List.mem_cons_of_mem g hg2) h1
        · have : g2.1.withExt "wmf" = g.1.withExt "wmf" := by simpa using h1
          exact hnd2.1 (this ▸ List.mem_map_of_mem _ hg2))
      hnd2.2]
    simp

theorem FName.eq_of_parts (a b : FName) (h1 : a.stem = b.stem)
    (h2 : a.ext = b.ext) : a = b := by
  cases a with
  | mk s e =>
    cases b with
    | mk s2 e2 =>
      simp only [FName.mk.injEq]
      exact ⟨h1, h2⟩

theorem nodup_targets (input : Dir) (hnd : (input.map Prod.fst).Nodup)
    (e t : String) :
    ((input.filter (fun f => f.1.ext == e)).map (fun f => f.1.withExt t)).Nodup := by
  have hsub : ((input.filter (fun f => f.1.ext == e)).map Prod.fst).Sublist
      (input.map Prod.fst) := (List.filter_sublist input).map Prod.fst
  have hnd2 : ((input.filter (fun f => f.1.ext == e)).map Prod.fst).Nodup :=
    hnd.sublist hsub
  have hrw : (input.filter (fun f => f.1.ext == e)).map (fun f => f.1.withExt t)
      = ((input.filter (fun f => f.1.ext == e)).map Prod.fst).map
          (fun n => n.withExt t) := by
    rw [List.map_map]
    rfl
  rw [hrw]
  apply List.Nodup.map_on ?_ hnd2
  intro x hx y hy hxy
  obtain ⟨fx, hfx, rfl⟩ := List.mem_map.mp hx
  obtain ⟨fy, hfy, rfl⟩ := List.mem_map.mp hy
  have hex : fx.1.ext = e := eq_of_beq (List.mem_filter.mp hfx).2
  have hey : fy.1.ext = e := eq_of_beq (List.mem_filter.mp hfy).2
  have hstem : fx.1.stem = fy.1.stem := by
    simpa [FName.withExt, FName.mk.injEq] using hxy
  exact FName.eq_of_parts _ _ hstem (hex.trans hey.symm)

theorem stage1Fold_nil (input : Dir) (hnd : (input.map Prod.fst).Nodup) :
    stage1Fold input [] = emzRenamed input := by
  unfold stage1Fold emzRenamed
  rw [foldl_upsert_fresh _ _ (by simp) (nodup_targets input hnd "emz" "wmf")]
  rfl

theorem wmfOnly_emzRenamed (input : Dir) : wmfOnly (emzRenamed input) = emzRenamed input := by
  unfold wmfOnly
  apply List.filter_eq_self.mpr
  intro f hf
  obtain ⟨g, hg, rfl⟩ := List.mem_map.mp hf
  rfl

/-! ### Characterizations of the pipeline's pieces -/

theorem stage1_spec (st : PState) (staged : Dir) (hst : st.stagingDir = some staged) :
    convert_emz_files_to_wmf st
      = ({ st with stagingDir := some (stage1Fold st.inputFiles staged) }, none) := by
  unfold convert_emz_files_to_wmf find_files stage1Fold
  rw [hst]

theorem stage2_spec (d : Decoder) (t : String) (st : PState) (fs : Dir)
    (hst : st.stagingDir = some fs) :
    convert_wmf_to_specified_output_type d t st =
      (if (stage2Run d t st fs).errors.length > 0 then
        ({ st with outputFiles := (stage2Run d t st fs).outputs, stagingDir := none, report := some (to_csv (stage2Run d t st fs).errors) },
          some (PipeError.batchIncomplete csv_file))
      else
        ({ st with outputFiles := (stage2Run d t st fs).outputs, stagingDir := none },
          none)) := by
  unfold convert_wmf_to_specified_output_type find_files stage2Run wmfOnly stage2Init
  rw [hst]

theorem stage2_outputs (d : Decoder) (t : String) (st : PState) (fs : Dir)
    (hst : st.stagingDir = some fs) :
    (convert_wmf_to_specified_output_type d t st).1.outputFiles
      = (stage2Run d t st fs).outputs := by
  rw [stage2_spec d t st fs hst]
  split
  · rfl
  · rfl

theorem stage2_staging (d : Decoder) (t : String) (st : PState) (fs : Dir)
    (hst : st.stagingDir = some fs) :
    (convert_wmf_to_specified_output_type d t st).1.stagingDir = none := by
  rw [stage2_spec d t st fs hst]
  split
  · rfl
  · rfl

theorem stage2_inputFiles (d : Decoder) (t : String) (st : PState) (fs : Dir)
    (hst : st.stagingDir = some fs) :
    (convert_wmf_to_specified_output_type d t st).1.inputFiles = st.inputFiles := by
  rw [stage2_spec d t st fs hst]
  split
  · rfl
  · rfl

theorem stage2_err (d : Decoder) (t : String) (st : PState) (fs : Dir)
    (hst : st.stagingDir = some fs) :
    (convert_wmf_to_specified_output_type d t st).2
      = (if (stage2Run d t st fs).errors.length > 0 then
          some (PipeError.batchIncomplete csv_file) else none) := by
  rw [stage2_spec d t st fs hst]
  split
  · rfl
  · rfl

theorem stage2_report (d : Decoder) (t : String) (st : PState) (fs : Dir)
    (hst : st.stagingDir = some fs) :
    (convert_wmf_to_specified_output_type d t st).1.report
      = (if (stage2Run d t st fs).errors.length > 0 then
          some (to_csv (stage2Run d t st fs).errors) else st.report) := by
  rw [stage2_spec d t st fs hst]
  split
  · rfl
  · rfl

theorem runJob_eq (d : Decoder) (t : String) (st : PState) :
    runJob d t st
      = convert_wmf_to_specified_output_type d t
          { st with stagingDir := some (stage1Fold st.inputFiles (st.stagingDir.getD [])) } := by
  unfold runJob convert initStaging
  rw [stage1_spec { st with stagingDir := some (st.stagingDir.getD []) }
    (st.stagingDir.getD []) rfl]

theorem runJob_inputFiles (d : Decoder) (t : String) (st : PState) :
    (runJob d t st).1.inputFiles = st.inputFiles := by
  rw [runJob_eq]
  rw [stage2_inputFiles d t _ _ rfl]

theorem runJob_staging (d : Decoder) (t : String) (st : PState) :
    (runJob d t st).1.stagingDir = none := by
  rw [runJob_eq]
  exact stage2_staging d t _ _ rfl

theorem runJob_outputs_congr (d : Decoder) (t : String) (sa sb : PState)
    (hi : sa.inputFiles = sb.inputFiles) (hs : sa.stagingDir = sb.stagingDir)
    (ho : sa.outputFiles = sb.outputFiles) :
    (runJob d t sa).1.outputFiles = (runJob d t sb).1.outputFiles := by
  rw [runJob_eq, runJob_eq]
  rw [stage2_outputs d t _ _ rfl, stage2_outputs d t _ _ rfl]
  unfold stage2Run stage2Init wmfOnly
  dsimp only
  rw [hi, hs, ho]

/-! ### The claims -/

/-- Claim C1: during stage 2, every staged `.wmf` file whose decode or save
raises is appended to the failure sequence and processing continues with the
next file: no per-file exception aborts the batch (the only error stage 2 can
raise is the final batch-incomplete one), and an output file is still
produced for every staged file that decodes successfully. -/
theorem C1_per_file_isolation (d : Decoder) (t : String) (st : PState)
    (fs : Dir) (hst : st.stagingDir = some fs) :
    (∀ f ∈ wmfOnly fs, fileFails d t f.2 = true →
        f.1 ∈ (stage2Run d t st fs).errors) ∧
    (∀ f ∈ wmfOnly fs, fileFails d t f.2 = false →
        f.1.withExt t ∈ (convert_wmf_to_specified_output_type d t st).1.outputFiles.map Prod.fst) ∧
    ((convert_wmf_to_specified_output_type d t st).2 = none ∨
      (convert_wmf_to_specified_output_type d t st).2 = some (PipeError.batchIncomplete csv_file)) := by
  refine ⟨?_, ?_, ?_⟩
  · intro f hf hfail
    exact runWmfs_mem_errors d t (wmfOnly fs) (stage2Init st) f hf hfail
  · intro f hf hok
    rw [stage2_outputs d t st fs hst]
    exact runWmfs_mem_outputs d t (wmfOnly fs) (stage2Init st) f hf hok
  · rw [stage2_err d t st fs hst]
    split
    · exact Or.inr rfl
    · exact Or.inl rfl

theorem C1_per_file_isolation_witness :
    stStage.stagingDir = some stagedW ∧
    (⟨"corrupt", "wmf"⟩ : FName) ∈ (stage2Run dW "png" stStage stagedW).errors ∧
    (FName.mk "a" "wmf").withExt "png" ∈ (convert_wmf_to_specified_output_type dW "png" stStage).1.outputFiles.map Prod.fst :=
  ⟨rfl,
    (C1_per_file_isolation dW "png" stStage stagedW rfl).1
      (⟨"corrupt", "wmf"⟩, "BAD") (by decide) (by decide),
    (C1_per_file_isolation dW "png" stStage stagedW rfl).2.1
      (⟨"a", "wmf"⟩, "GOODA") (by decide) (by decide)⟩

/-- Claim C2: at the end of stage 2 an error is raised iff the failure
sequence is non-empty; in that case the two-column report (row index, file
name) holding exactly the failed files is written to
`./unsuccessful_conversions.csv` and the raised error names that path; with
no failures nothing is written to the report file and no error is raised. -/
theorem C2_report_iff_failures (d : Decoder) (t : String) (st : PState)
    (fs : Dir) (hst : st.stagingDir = some fs) :
    ((convert_wmf_to_specified_output_type d t st).2 ≠ none ↔
        (stage2Run d t st fs).errors ≠ []) ∧
    ((stage2Run d t st fs).errors ≠ [] →
        (convert_wmf_to_specified_output_type d t st).1.report = some (to_csv (stage2Run d t st fs).errors) ∧
        (convert_wmf_to_specified_output_type d t st).2 = some (PipeError.batchIncomplete csv_file)) ∧
    ((stage2Run d t st fs).errors = [] →
        (convert_wmf_to_specified_output_type d t st).1.report = st.report ∧
        (convert_wmf_to_specified_output_type d t st).2 = none) := by
  rw [stage2_err d t st fs hst, stage2_report d t st fs hst]
  by_cases hE : (stage2Run d t st fs).errors = []
  · rw [hE]
    simp
  · have hlen : (stage2Run d t st fs).errors.length > 0 :=
      List.length_pos.mpr hE
    rw [if_pos hlen, if_pos hlen]
    simp [hE]

theorem C2_report_iff_failures_witness :
    stStage.stagingDir = some stagedW ∧
    (stage2Run dW "png" stStage stagedW).errors ≠ [] ∧
    (convert_wmf_to_specified_output_type dW "png" stStage).1.report = some (to_csv (stage2Run dW "png" stStage stagedW).errors) ∧
    (convert_wmf_to_specified_output_type dW "png" stStage).2 = some (PipeError.batchIncomplete csv_file) :=
  ⟨rfl, by decide,
    ((C2_report_iff_failures dW "png" stStage stagedW rfl).2.1 (by decide)).1,
    ((C2_report_iff_failures dW "png" stStage stagedW rfl).2.1 (by decide)).2⟩

/-- Claim C3: whenever stage 2's per-file loop runs to its end (which it does
whenever the staging directory exists when stage 2 starts), the staging
directory is removed before the stage terminates, whether or not any decode
failed: afterwards it no longer exists. -/
theorem C3_staging_always_removed (d : Decoder) (t : String) (st : PState)
    (fs : Dir) (hst : st.stagingDir = some fs) :
    (convert_wmf_to_specified_output_type d t st).1.stagingDir = none :=
  stage2_staging d t st fs hst

theorem C3_staging_always_removed_witness :
    stStage.stagingDir = some stagedW ∧
    (convert_wmf_to_specified_output_type dW "png" stStage).1.stagingDir = none :=
  ⟨rfl, C3_staging_always_removed dW "png" stStage stagedW rfl⟩

/-- Claim C4: for every existing input directory path, when no output
directory is supplied, `check_paths` resolves the output directory to the
subdirectory `output_png_images` of the input directory, and that directory
exists on the returned filesystem (created when missing). -/
theorem C4_default_output_dir (fs : DirFS) (inp : String)
    (h : fs.hasDir (parsePath inp) = true) :
    (check_paths fs inp none).2 = Except.ok (parsePath inp, parsePath inp ++ ["output_png_images"]) ∧
    (check_paths fs inp none).1.hasDir (parsePath inp ++ ["output_png_images"]) = true := by
  unfold check_paths
  rw [if_pos h]
  simp only [parsePath_default_output]
  by_cases h2 : fs.hasDir (parsePath inp ++ ["output_png_images"]) = true
  · rw [if_pos h2]
    exact ⟨rfl, h2⟩
  · rw [if_neg h2]
    refine ⟨rfl, ?_⟩
    unfold DirFS.mkdir DirFS.hasDir
    simp

theorem C4_default_output_dir_witness :
    fsW.hasDir (parsePath "in") = true ∧
    (check_paths fsW "in" none).2 = Except.ok (parsePath "in", parsePath "in" ++ ["output_png_images"]) ∧
    (check_paths fsW "in" none).1.hasDir (parsePath "in" ++ ["output_png_images"]) = true :=
  ⟨by decide, C4_default_output_dir fsW "in" (by decide)⟩

/-- Claim C5: constructing the job on an input directory path that does not
exist raises the path-not-found error before any file operation: the
filesystem is returned unchanged, so neither the output directory nor the
staging directory has been created. -/
theorem C5_missing_input_aborts (fs : DirFS) (inp : String) (o : Option String)
    (t : String) (h : fs.hasDir (parsePath inp) = false) :
    emzConverterInit fs inp o t
      = (fs, Except.error ("The path " ++ inp ++ " does not exist")) := by
  unfold emzConverterInit check_paths
  rw [if_neg (by rw [h]; exact Bool.false_ne_true)]

theorem C5_missing_input_aborts_witness :
    fsW.hasDir (parsePath "missing") = false ∧
    emzConverterInit fsW "missing" none "png"
      = (fsW, Except.error ("The path " ++ "missing" ++ " does not exist")) :=
  ⟨by decide, C5_missing_input_aborts fsW "missing" none "png" (by decide)⟩

/-- Claim C6: stage 1 copies the bytes of every `.emz` file of the input
directory verbatim into the staging directory under the same base name with
extension `.wmf`, raises nothing, never mutates the input directory, and is
a no-op when the input directory holds no `.emz` file. -/
theorem C6_stage1_copies_verbatim (st : PState) (staged : Dir)
    (hst : st.stagingDir = some staged)
    (hnd : (st.inputFiles.map Prod.fst).Nodup) :
    (convert_emz_files_to_wmf st).1.inputFiles = st.inputFiles ∧
    (convert_emz_files_to_wmf st).2 = none ∧
    (convert_emz_files_to_wmf st).1.stagingDir = some (stage1Fold st.inputFiles staged) ∧
    (∀ f ∈ st.inputFiles, f.1.ext = "emz" →
        (f.1.withExt "wmf", f.2) ∈ stage1Fold st.inputFiles staged) ∧
    (st.inputFiles.filter (fun f => f.1.ext == "emz") = [] →
        (convert_emz_files_to_wmf st).1 = st) := by
  rw [stage1_spec st staged hst]
  refine ⟨rfl, rfl, rfl, ?_, ?_⟩
  · intro f hf he
    have hf2 : f ∈ st.inputFiles.filter (fun x => x.1.ext == "emz") :=
      List.mem_filter.mpr ⟨hf, by simp [he]⟩
    obtain ⟨l1, l2, hsplit⟩ := List.append_of_mem hf2
    unfold stage1Fold
    rw [hsplit, List.foldl_append, List.foldl_cons]
    apply mem_foldl_upsert
    · exact mem_upsert_self _ _ _
    · intro g hg heq
      have hnd2 := nodup_targets st.inputFiles hnd "emz" "wmf"
      rw [hsplit, List.map_append, List.map_cons] at hnd2
      have h3 := List.Nodup.of_append_right hnd2
      have h4 := (List.nodup_cons.mp h3).1
      have heq2 : g.1.withExt "wmf" = f.1.withExt "wmf" := heq
      exact h4 (heq2 ▸ List.mem_map_of_mem _ hg)
  · intro hemz
    unfold stage1Fold
    rw [hemz, List.foldl_nil, ← hst]

theorem C6_stage1_copies_verbatim_witness :
    stStage.stagingDir = some stagedW ∧
    (stStage.inputFiles.map Prod.fst).Nodup ∧
    (convert_emz_files_to_wmf stStage).1.inputFiles = stStage.inputFiles ∧
    (convert_emz_files_to_wmf stStage).2 = none ∧
    ((FName.mk "a" "emz").withExt "wmf", "GOODA") ∈ stage1Fold stStage.inputFiles stagedW :=
  ⟨rfl, by decide,
    (C6_stage1_copies_verbatim stStage stagedW rfl (by decide)).1,
    (C6_stage1_copies_verbatim stStage stagedW rfl (by decide)).2.1,
    (C6_stage1_copies_verbatim stStage stagedW rfl (by decide)).2.2.2.1
      (⟨"a", "emz"⟩, "GOODA") (by decide) (by decide)⟩

/-- Claim C7: starting from a fresh state (no staging directory, empty
output directory) whose N `.emz` files all decode successfully, a full run
produces exactly the N output files, each keeping its source's base name
under the configured output extension; afterwards the staging directory does
not exist and no error is raised. -/
theorem C7_all_successful_run (d : Decoder) (t : String) (st : PState)
    (h1 : st.stagingDir = none) (h2 : st.outputFiles = [])
    (hnd : (st.inputFiles.map Prod.fst).Nodup)
    (hok : ∀ f ∈ st.inputFiles, f.1.ext = "emz" → fileFails d t f.2 = false) :
    (runJob d t st).1.outputFiles.map Prod.fst
        = (st.inputFiles.filter (fun f => f.1.ext == "emz")).map (fun f => f.1.withExt t) ∧
    (runJob d t st).1.stagingDir = none ∧
    (runJob d t st).2 = none := by
  have hgd : st.stagingDir.getD [] = [] := by rw [h1]; rfl
  have hmap : (emzRenamed st.inputFiles).map (fun f => f.1.withExt t)
      = (st.inputFiles.filter (fun f => f.1.ext == "emz")).map (fun f => f.1.withExt t) := by
    unfold emzRenamed
    rw [List.map_map]
    rfl
  have hacc : stage2Run d t { st with stagingDir := some (emzRenamed st.inputFiles) } (emzRenamed st.inputFiles)
      = runWmfs d t (emzRenamed st.inputFiles) { outputs := [], errors := [] } := by
    unfold stage2Run stage2Init
    rw [wmfOnly_emzRenamed]
    dsimp only
    rw [h2]
  have hall := runWmfs_all_ok d t (emzRenamed st.inputFiles) { outputs := [], errors := [] }
    (by
      intro f hf
      obtain ⟨g, hg, rfl⟩ := List.mem_map.mp hf
      have hgf := List.mem_filter.mp hg
      exact hok g hgf.1 (eq_of_beq hgf.2))
    (by
      intro f hf
      simp)
    (by
      rw [hmap]
      exact nodup_targets st.inputFiles hnd "emz" t)
  have hs2o := stage2_outputs d t { st with stagingDir := some (emzRenamed st.inputFiles) } (emzRenamed st.inputFiles) rfl
  have hs2s := stage2_staging d t { st with stagingDir := some (emzRenamed st.inputFiles) } (emzRenamed st.inputFiles) rfl
  have hs2e := stage2_err d t { st with stagingDir := some (emzRenamed st.inputFiles) } (emzRenamed st.inputFiles) rfl
  rw [runJob_eq, hgd, stage1Fold_nil st.inputFiles hnd]
  refine ⟨?_, hs2s, ?_⟩
  · rw [hs2o, hacc, hall.1, hmap]
    simp
  · rw [hs2e, hacc, hall.2]
    simp

theorem C7_all_successful_run_witness :
    stFresh.stagingDir = none ∧
    stFresh.outputFiles = [] ∧
    (runJob dW "png" stFresh).1.outputFiles.map Prod.fst
        = (stFresh.inputFiles.filter (fun f => f.1.ext == "emz")).map (fun f => f.1.withExt "png") ∧
    (runJob dW "png" stFresh).1.stagingDir = none ∧
    (runJob dW "png" stFresh).2 = none :=
  ⟨rfl, rfl,
    (C7_all_successful_run dW "png" stFresh rfl rfl (by decide) (by decide)).1,
    (C7_all_successful_run dW "png" stFresh rfl rfl (by decide) (by decide)).2.1,
    (C7_all_successful_run dW "png" stFresh rfl rfl (by decide) (by decide)).2.2⟩

/-- Claim C8: running the pipeline twice on the same unchanged input, with
the output directory emptied between the two runs, yields the same set of
output file names both times. -/
theorem C8_idempotent_outputs (d : Decoder) (t : String) (st : PState)
    (h1 : st.stagingDir = none) (h2 : st.outputFiles = []) :
    (runJob d t { (runJob d t st).1 with outputFiles := [] }).1.outputFiles.map Prod.fst
      = (runJob d t st).1.outputFiles.map Prod.fst := by
  have hcongr := runJob_outputs_congr d t
    { (runJob d t st).1 with outputFiles := [] } st
    (by
      show (runJob d t st).1.inputFiles = st.inputFiles
      exact runJob_inputFiles d t st)
    (by
      show (runJob d t st).1.stagingDir = st.stagingDir
      rw [runJob_staging d t st, h1])
    (by
      show ([] : Dir) = st.outputFiles
      exact h2.symm)
  rw [hcongr]

theorem C8_idempotent_outputs_witness :
    stFresh.stagingDir = none ∧
    stFresh.outputFiles = [] ∧
    (runJob dW "png" { (runJob dW "png" stFresh).1 with outputFiles := [] }).1.outputFiles.map Prod.fst
      = (runJob dW "png" stFresh).1.outputFiles.map Prod.fst :=
  ⟨rfl, rfl, C8_idempotent_outputs dW "png" stFresh rfl rfl⟩

/-- Claim C10: the staging directory is created with exist-ok semantics and
never emptied before stage 2, so every `.wmf` file already present in it
before the run (and not overwritten by stage 1) is part of stage 2's batch:
it is either written to the output directory or recorded as a failure, and
the staging directory is deleted afterwards. -/
theorem C10_leftover_staged_files (d : Decoder) (t : String) (st : PState)
    (pre : Dir) (hst : st.stagingDir = some pre) (f : FName × String)
    (hf : f ∈ pre) (hext : f.1.ext = "wmf")
    (hfr : ∀ g ∈ st.inputFiles, g.1.ext = "emz" → g.1.withExt "wmf" ≠ f.1) :
    (fileFails d t f.2 = false →
        f.1.withExt t ∈ (runJob d t st).1.outputFiles.map Prod.fst) ∧
    (fileFails d t f.2 = true →
        (runJob d t st).2 = some (PipeError.batchIncomplete csv_file) ∧
        ∃ E, (runJob d t st).1.report = some (to_csv E) ∧ f.1 ∈ E) ∧
    (runJob d t st).1.stagingDir = none := by
  have hgd : st.stagingDir.getD [] = pre := by rw [hst]; rfl
  have hmem : f ∈ stage1Fold st.inputFiles pre := by
    unfold stage1Fold
    apply mem_foldl_upsert _ _ _ hf
    intro g hg
    have hgf := List.mem_filter.mp hg
    exact hfr g hgf.1 (eq_of_beq hgf.2)
  have hmem2 : f ∈ wmfOnly (stage1Fold st.inputFiles pre) :=
    List.mem_filter.mpr ⟨hmem, by simp [hext]⟩
  have hs2o := stage2_outputs d t { st with stagingDir := some (stage1Fold st.inputFiles pre) } (stage1Fold st.inputFiles pre) rfl
  have hs2s := stage2_staging d t { st with stagingDir := some (stage1Fold st.inputFiles pre) } (stage1Fold st.inputFiles pre) rfl
  have hs2e := stage2_err d t { st with stagingDir := some (stage1Fold st.inputFiles pre) } (stage1Fold st.inputFiles pre) rfl
  have hs2r := stage2_report d t { st with stagingDir := some (stage1Fold st.inputFiles pre) } (stage1Fold st.inputFiles pre) rfl
  rw [runJob_eq, hgd]
  refine ⟨?_, ?_, hs2s⟩
  · intro hok
    rw [hs2o]
    exact runWmfs_mem_outputs d t (wmfOnly (stage1Fold st.inputFiles pre))
      (stage2Init { st with stagingDir := some (stage1Fold st.inputFiles pre) }) f hmem2 hok
  · intro hfail
    have herr : f.1 ∈ (stage2Run d t { st with stagingDir := some (stage1Fold st.inputFiles pre) } (stage1Fold st.inputFiles pre)).errors :=
      runWmfs_mem_errors d t (wmfOnly (stage1Fold st.inputFiles pre))
        (stage2Init { st with stagingDir := some (stage1Fold st.inputFiles pre) }) f hmem2 hfail
    have hne : (stage2Run d t { st with stagingDir := some (stage1Fold st.inputFiles pre) } (stage1Fold st.inputFiles pre)).errors ≠ [] := by
      intro hnil
      rw [hnil] at herr
      exact absurd herr (List.not_mem_nil _)
    have hlen := List.length_pos.mpr hne
    rw [hs2e, hs2r, if_pos hlen, if_pos hlen]
    exact ⟨rfl, ⟨_, rfl, herr⟩⟩

theorem C10_leftover_staged_files_witness :
    stLeft.stagingDir = some [(⟨"left", "wmf"⟩, "GOODL")] ∧
    fileFails dW "png" "GOODL" = false ∧
    (FName.mk "left" "wmf").withExt "png" ∈ (runJob dW "png" stLeft).1.outputFiles.map Prod.fst ∧
    (runJob dW "png" stLeft).1.stagingDir = none :=
  ⟨rfl, by decide,
    (C10_leftover_staged_files dW "png" stLeft [(⟨"left", "wmf"⟩, "GOODL")] rfl
      (⟨"left", "wmf"⟩, "GOODL") (by decide) (by decide) (by decide)).1 (by decide),
    (C10_leftover_staged_files dW "png" stLeft [(⟨"left", "wmf"⟩, "GOODL")] rfl
      (⟨"left", "wmf"⟩, "GOODL") (by decide) (by decide) (by decide)).2.2⟩

end EmzConvertor
